import Mathlib

/-!
Verification development for the per-camera frame pipeline of the
Cameras-Python repository: the Reader throttling loop, the motion-detector
state machine and its recorder, filename collision resolution, the retention
sweep, and name normalization.  Definitions are shallow embeddings of the
corresponding Python functions; machine floats are modelled by rationals and
the opaque OpenCV image operations by an environment of abstract functions.
-/

set_option maxHeartbeats 1000000

/-- Python `int()` applied to a rational value: truncation toward zero. -/
def pyInt (q : ℚ) : Int := if 0 ≤ q then Int.floor q else Int.ceil q

/-- Append to a `collections.deque` with `maxlen`: the result keeps the last
`maxlen` elements of `buf ++ [x]` (oldest elements are discarded first). -/
def dequeAppend {α : Type} (maxlen : Nat) (buf : List α) (x : α) : List α :=
  (buf ++ [x]).drop (buf.length + 1 - maxlen)

/-- Motion parameters of `Motion.__init__` that drive the state machine in
`Motion._run` (src/src/modules/motion.py). -/
structure MotionConfig where
  minimumMotionFrames : Nat
  preCapture : Nat
  postCapture : Nat
  eventGapFrames : Nat
deriving DecidableEq

/-- CameraReader.__init__ builds the Motion module with
`event_gap_frames = event_gap * target_fps` (src/src/modules/camera.py). -/
def mkEventGapFrames (eventGap targetFps : Nat) : Nat := eventGap * targetFps

/-- Mutable state of the `Motion._run` loop's state machine together with the
state of the per-event MotionRecording instance.  `recQueue` records the
cumulative sequence of encoded frames handed to the MotionRecording queue and
`eventsStarted` counts the event files opened by `start_event`. -/
structure MotionCoreState (Enc : Type) where
  motionFrameCount : Nat
  idleFrameCount : Nat
  inEvent : Bool
  inTrueMotion : Bool
  preCaptureBuffer : List Enc
  minimumMotionBuffer : List Enc
  recOpen : Bool
  recQueue : List Enc
  eventsStarted : Nat
deriving DecidableEq

/-- MotionRecording.start_event (src/src/modules/recording/motion_recording.py):
a new event file is opened only when no FFmpeg process is active. -/
def MotionRecording.startEvent {Enc : Type} (s : MotionCoreState Enc) :
    MotionCoreState Enc :=
  if s.recOpen then s
  else { s with recOpen := true, eventsStarted := s.eventsStarted + 1 }

/-- Modelled from the spec: MotionRecording.stop_event closes the recorder
(the FFmpeg process is stopped after the queue drains); the call site in
`Motion._run` is a placeholder comment in the source. -/
def MotionRecording.stopEvent {Enc : Type} (s : MotionCoreState Enc) :
    MotionCoreState Enc :=
  { s with recOpen := false }

/-- One iteration of the motion state machine of `Motion._run` for a frame with
motion verdict `motion` and encoded bytes `enc`.  The counter, buffer, and
`in_event` / `in_true_motion` updates mirror the source; the recorder actions
(open the MotionRecording, flush the pre-capture ring then the
minimum-motion-frames buffer into its queue, forward frames while in true
motion, close the recording at event end) are modelled from the spec, since in
the source they appear as placeholder comments at the marked points of
`Motion._run`. -/
def Motion.update {Enc : Type} (cfg : MotionConfig) (s : MotionCoreState Enc)
    (motion : Bool) (enc : Enc) : MotionCoreState Enc :=
  if motion then
    if s.inTrueMotion then
      { s with idleFrameCount := 0, recQueue := s.recQueue ++ [enc] }
    else
      let minBuf := dequeAppend cfg.minimumMotionFrames s.minimumMotionBuffer enc
      if cfg.minimumMotionFrames ≤ s.motionFrameCount + 1 then
        let s1 : MotionCoreState Enc :=
          { s with motionFrameCount := 0, idleFrameCount := 0,
                   inTrueMotion := true, minimumMotionBuffer := minBuf }
        let s2 := if s1.inEvent then s1
                  else MotionRecording.startEvent { s1 with inEvent := true }
        { s2 with recQueue := s2.recQueue ++ s2.preCaptureBuffer ++ s2.minimumMotionBuffer,
                  preCaptureBuffer := [], minimumMotionBuffer := [] }
      else
        { s with motionFrameCount := s.motionFrameCount + 1,
                 idleFrameCount := s.idleFrameCount + 1,
                 minimumMotionBuffer := minBuf }
  else
    let idle := s.idleFrameCount + 1
    let s1 : MotionCoreState Enc :=
      if s.inTrueMotion then
        if cfg.postCapture < idle then
          { s with motionFrameCount := 0, idleFrameCount := idle,
                   inTrueMotion := false,
                   preCaptureBuffer := dequeAppend cfg.preCapture s.preCaptureBuffer enc }
        else
          { s with motionFrameCount := 0, idleFrameCount := idle,
                   recQueue := s.recQueue ++ [enc] }
      else
        { s with motionFrameCount := 0, idleFrameCount := idle,
                 preCaptureBuffer := dequeAppend cfg.preCapture s.preCaptureBuffer enc }
    if s1.inTrueMotion = false ∧ s1.inEvent = true ∧
        cfg.postCapture + cfg.eventGapFrames < idle then
      MotionRecording.stopEvent { s1 with inEvent := false }
    else s1

/-- Initial motion-machine state (the local variables set at the top of
`Motion._run` and an idle MotionRecording). -/
def Motion.initState (Enc : Type) : MotionCoreState Enc :=
  { motionFrameCount := 0, idleFrameCount := 0, inEvent := false,
    inTrueMotion := false, preCaptureBuffer := [], minimumMotionBuffer := [],
    recOpen := false, recQueue := [], eventsStarted := 0 }

/-- Run the motion state machine over a list of (motion verdict, encoded frame)
pairs, i.e. the frames dequeued after the first (differencing starts with the
second dequeued frame). -/
def Motion.runUpdate {Enc : Type} (cfg : MotionConfig)
    (l : List (Bool × Enc)) : MotionCoreState Enc :=
  l.foldl (fun s p => Motion.update cfg s p.1 p.2) (Motion.initState Enc)

/-- Opaque image operations used by `Motion._run`: `dims raw` is
`raw.shape[:2]` (height, width); `preprocess` is `Motion._preprocess` given the
processed resolution and the resize flag; `isMotion` combines
`Motion._frame_diff` and `Motion._is_motion` given the two thresholds. -/
structure MotionEnv (Raw PFrame : Type) where
  dims : Raw → Nat × Nat
  preprocess : Nat × Nat → Option Bool → Raw → PFrame
  isMotion : PFrame → PFrame → Int → Int → Bool

/-- Full mutable state of the Motion module: the state machine plus the fields
set by `Motion._set_processed_resolution` and the previous processed frame.
The initial Python value `(None, None)` of `self._res` is modelled by `(0, 0)`:
`all(self._res)` is falsy exactly on `None` and `0` components. -/
structure MotionState (PFrame Enc : Type) where
  core : MotionCoreState Enc
  previous : Option PFrame
  res : Nat × Nat
  needResize : Option Bool
  pixelThreshold : Int
  objectThreshold : Int
deriving DecidableEq

/-- Initial state of the Motion module before the first frame is dequeued. -/
def Motion.initFullState (PFrame Enc : Type) : MotionState PFrame Enc :=
  { core := Motion.initState Enc, previous := none, res := (0, 0),
    needResize := none, pixelThreshold := 0, objectThreshold := 0 }

/-- Motion._set_processed_resolution body (src/src/modules/motion.py): given
the frame width and height, compute the processed resolution, the resize flag,
and the absolute pixel and object thresholds.  Returns
((width, height), need_resize, pixel_threshold, object_threshold). -/
def Motion.setProcessedResolution (pixelPct objectPct : ℚ) (w h : Nat) :
    (Nat × Nat) × Bool × Int × Int :=
  let maxW : Nat := 640
  let maxH : Nat := 480
  let rw : Nat × Nat × Bool :=
    if maxW < w ∨ maxH < h then
      let scale : ℚ := min ((maxW : ℚ) / w) ((maxH : ℚ) / h)
      ((pyInt ((w : ℚ) * scale)).toNat, (pyInt ((h : ℚ) * scale)).toNat, true)
    else (w, h, false)
  let pt : Int := pyInt ((rw.1 : ℚ) * (rw.2.1 : ℚ) * pixelPct / 100)
  let ot : Int := pyInt ((rw.1 : ℚ) * (rw.2.1 : ℚ) * objectPct / 100)
  ((rw.1, rw.2.1), rw.2.2, pt, ot)

/-- One iteration of the `Motion._run` loop body on a dequeued (raw, encoded)
frame pair: set the processed resolution while `all(self._res)` is falsy, then
preprocess; the first processed frame is only stored as the previous frame,
and from the second frame on the motion verdict drives the state machine. -/
def Motion.step {Raw PFrame Enc : Type} (env : MotionEnv Raw PFrame)
    (cfg : MotionConfig) (pixelPct objectPct : ℚ)
    (s : MotionState PFrame Enc) (raw : Raw) (enc : Enc) :
    MotionState PFrame Enc :=
  let s :=
    if s.res.1 = 0 ∨ s.res.2 = 0 then
      let hw := env.dims raw
      let r := Motion.setProcessedResolution pixelPct objectPct hw.2 hw.1
      { s with res := r.1, needResize := some r.2.1,
               pixelThreshold := r.2.2.1, objectThreshold := r.2.2.2 }
    else s
  let processed := env.preprocess s.res s.needResize raw
  match s.previous with
  | none => { s with previous := some processed }
  | some prev =>
      { s with
        core := Motion.update cfg s.core
          (env.isMotion prev processed s.pixelThreshold s.objectThreshold) enc,
        previous := some processed }

/-- Sleep time computed at the top of `CameraReader._run`
(src/src/modules/camera.py): half a source-frame interval when the device
reports a usable FPS, otherwise a 5 ms default. -/
def CameraReader.computeSleepTime (sourceFps : Nat) : ℚ :=
  if 1 ≤ sourceFps then 1 / (sourceFps : ℚ) / 2 else 5 / 1000

/-- Target frame interval `1.0 / self.target_fps` of `CameraReader._run`. -/
def CameraReader.targetFrameInterval (targetFps : Nat) : ℚ := 1 / (targetFps : ℚ)

/-- One iteration of the time-based throttling in `CameraReader._run`: the
state is (next_display_time, frames emitted so far as their read times); a
frame read at time `now` is emitted iff `next_display_time ≤ now`, and then
`next_display_time` advances by the target frame interval. -/
def CameraReader.throttleStep (interval : ℚ) (st : ℚ × List ℚ) (now : ℚ) :
    ℚ × List ℚ :=
  if st.1 ≤ now then (st.1 + interval, st.2 ++ [now]) else st

/-- Run the reader throttling over the sequence of frame-read times, starting
from `next_display_time = start`. -/
def CameraReader.runThrottle (interval start : ℚ) (times : List ℚ) :
    ℚ × List ℚ :=
  times.foldl (CameraReader.throttleStep interval) (start, [])

/-- Threads involved in the camera shutdown path. -/
inductive PyThread where
  | cameraThread
  | dispatcherThread
  | mainThread
deriving DecidableEq

/-- threading.Thread.join raises RuntimeError when a thread attempts to join
itself; otherwise it waits for the target thread. -/
def PyThread.join (target current : PyThread) : Except String Unit :=
  if target = current then Except.error "cannot join current thread"
  else Except.ok ()

/-- Progress flags of the per-camera shutdown sequence of `CameraReader.stop`
plus the capture release performed after the reader loop. -/
structure CameraWorkers where
  camStopEventSet : Bool
  camThreadJoined : Bool
  dispatcherStopEventSet : Bool
  dispatcherThreadJoined : Bool
  streamRecordingStopped : Bool
  motionStopped : Bool
  frameQueueCleared : Bool
  capReleased : Bool
deriving DecidableEq

/-- State of a running camera before shutdown begins. -/
def CameraReader.initWorkers : CameraWorkers :=
  { camStopEventSet := false, camThreadJoined := false,
    dispatcherStopEventSet := false, dispatcherThreadJoined := false,
    streamRecordingStopped := false, motionStopped := false,
    frameQueueCleared := false, capReleased := false }

/-- CameraReader.stop (src/src/modules/camera.py) executed on thread
`current`: set the camera stop event, join the camera thread, then stop and
join the dispatcher, the StreamRecording manager and the Motion module, and
clear the raw-frame queue.  An exception raised by a join aborts the sequence
at that point and is returned. -/
def CameraReader.stop (current : PyThread) (s : CameraWorkers) :
    CameraWorkers × Option String :=
  let s1 := { s with camStopEventSet := true }
  match PyThread.join PyThread.cameraThread current with
  | Except.error e => (s1, some e)
  | Except.ok _ =>
    let s2 := { s1 with camThreadJoined := true, dispatcherStopEventSet := true }
    match PyThread.join PyThread.dispatcherThread current with
    | Except.error e => (s2, some e)
    | Except.ok _ =>
      ({ s2 with dispatcherThreadJoined := true, streamRecordingStopped := true,
                 motionStopped := true, frameQueueCleared := true }, none)

/-- CameraReader._run reaction to `self.cap.read()` returning no frame: it
logs, calls `self.stop()` on the camera thread itself, and on normal loop exit
would release the capture device; an exception propagating out of `stop`
skips the release. -/
def CameraReader.onReadFailure (s : CameraWorkers) : CameraWorkers × Option String :=
  match CameraReader.stop PyThread.cameraThread s with
  | (s1, none) => ({ s1 with capReleased := true }, none)
  | (s1, some e) => (s1, some e)

/-- ASCII case mapping of Python str.lower as used on camera names. -/
def pyLowerChar (c : Char) : Char :=
  if 65 ≤ c.toNat ∧ c.toNat ≤ 90 then Char.ofNat (c.toNat + 32) else c

/-- Character replacement performed by `.replace(' ', '_')`. -/
def replaceSpaceChar (c : Char) : Char := if c = ' ' then '_' else c

/-- Name normalization of `Config._validate_cameras_config`
(src/src/modules/config.py): `name.lower().replace(' ', '_')`. -/
def Config.normName (s : List Char) : List Char :=
  (s.map pyLowerChar).map replaceSpaceChar

/-- Extension list iterated by `RecordingManager._clean_old_files`, verbatim
from the source. -/
def RecordingManager.cleanExts : List String := ["avi", "mp4", ".mkv", ".ts"]

/-- Does a directory entry match the glob pattern built as the f-string
of one extension from the list, i.e. star dot ext?  The star matches any
sequence of characters, but glob never matches hidden files (a leading dot). -/
def RecordingManager.matchesCleanPattern (name : List Char) : Bool :=
  RecordingManager.cleanExts.any (fun e =>
    (('.' :: e.data).isSuffixOf name) &&
    (match name with
     | [] => false
     | c :: _ => c ≠ '.'))

/-- RecordingManager._clean_old_files over a directory listing of
(filename, mtime) pairs: every file matched by one of the glob patterns whose
mtime is strictly older than `now - max_days_to_save * 86400` is removed. -/
def RecordingManager.cleanOldFiles (now : ℚ) (maxDaysToSave : Nat)
    (files : List (List Char × ℚ)) : List (List Char × ℚ) :=
  let cutoff : ℚ := now - (maxDaysToSave : ℚ) * 86400
  files.filter (fun f =>
    !(RecordingManager.matchesCleanPattern f.1 && decide (f.2 < cutoff)))

/-- Decimal digit character, `48 + d` in code points. -/
def natDigitChar (d : Nat) : Char := Char.ofNat (48 + d)

/-- Decimal digits of a natural number as characters, most significant first;
`fuel` bounds the recursion and any `fuel ≥ n` computes all digits of `n`.
Zero yields the empty list (the source never formats the index zero). -/
def natCharsAux : Nat → Nat → List Char
  | _, 0 => []
  | 0, _ + 1 => []
  | fuel + 1, n + 1 =>
      natCharsAux fuel ((n + 1) / 10) ++ [natDigitChar ((n + 1) % 10)]

/-- Decimal representation of a positive index, as in the f-string suffix. -/
def natChars (n : Nat) : List Char := natCharsAux n n

/-- Candidate file name tried by `RecordingManager._check_file_name`: the
requested name for index 0, and the name with the parenthesised index inserted
before the extension for positive indices. -/
def candidateName (base ext : List Char) (i : Nat) : List Char :=
  if i = 0 then base ++ ext
  else base ++ '(' :: (natChars i ++ ')' :: ext)

/-- Loop of `RecordingManager._check_file_name`: try candidate names in index
order until one is not in the set of existing files; `fuel` bounds the number
of candidates tried. -/
def checkFileNameLoop (existing : List (List Char)) (base ext : List Char) :
    Nat → Nat → Option (List Char)
  | 0, _ => none
  | fuel + 1, i =>
      if candidateName base ext i ∈ existing then
        checkFileNameLoop existing base ext fuel (i + 1)
      else some (candidateName base ext i)

/-- RecordingManager._check_file_name
(src/src/modules/recording/recording_manager.py) against a directory listing
`existing`, for a requested filename already split as `base ++ ext`
(`os.path.splitext`).  A fuel of one more than the number of existing files
always suffices, since candidate names are pairwise distinct. -/
def RecordingManager.checkFileName (existing : List (List Char))
    (base ext : List Char) : Option (List Char) :=
  checkFileNameLoop existing base ext (existing.length + 1) 0

/-! ## Helper lemmas -/

lemma char_toNat_ofNat (n : Nat) (h : n.isValidChar) : (Char.ofNat n).toNat = n := by
  unfold Char.ofNat
  rw [dif_pos h]
  rfl

lemma pyInt_eq_floor (q : ℚ) (h : 0 ≤ q) : pyInt q = Int.floor q := if_pos h

lemma pyLowerChar_not_upper (c : Char) :
    ¬(65 ≤ (pyLowerChar c).toNat ∧ (pyLowerChar c).toNat ≤ 90) := by
  by_cases h : 65 ≤ c.toNat ∧ c.toNat ≤ 90
  · have hv : (c.toNat + 32).isValidChar := Or.inl (by omega)
    simp only [pyLowerChar, if_pos h, char_toNat_ofNat _ hv]
    omega
  · simp only [pyLowerChar, if_neg h]
    exact h

lemma pyLowerChar_idem (c : Char) : pyLowerChar (pyLowerChar c) = pyLowerChar c := by
  have h := pyLowerChar_not_upper c
  simp only [pyLowerChar] at h ⊢
  rw [if_neg h]

lemma normChar_idem (c : Char) :
    replaceSpaceChar (pyLowerChar (replaceSpaceChar (pyLowerChar c))) =
      replaceSpaceChar (pyLowerChar c) := by
  by_cases hsp : pyLowerChar c = ' '
  · rw [hsp]
    decide
  · have h1 : replaceSpaceChar (pyLowerChar c) = pyLowerChar c := if_neg hsp
    rw [h1, pyLowerChar_idem]
    exact h1

/-- Claim C9: name normalization (lowercase, then spaces to underscores, as in
Config._validate_cameras_config) is idempotent: norm (norm x) = norm x for
every string x. -/
theorem normName_idempotent (s : List Char) :
    Config.normName (Config.normName s) = Config.normName s := by
  unfold Config.normName
  induction s with
  | nil => rfl
  | cons c cs ih =>
      simp only [List.map_cons]
      rw [normChar_idem c]
      exact congrArg _ ih

/-- Claim C4, counterexample: at a device-reported source FPS of 30 the
inter-poll sleep of `CameraReader._run` is 1/60 s, which exceeds 5 ms and is
not min(5 ms, 1/source_fps / 2). -/
theorem computeSleepTime_counterexample :
    CameraReader.computeSleepTime 30 = 1 / 60 ∧
    ¬(CameraReader.computeSleepTime 30 ≤ 5 / 1000) ∧
    CameraReader.computeSleepTime 30 ≠ min (5 / 1000) (1 / (30 : ℚ) / 2) := by
  refine ⟨?_, ?_, ?_⟩ <;> norm_num [CameraReader.computeSleepTime]

/-- Claim C4, amended: the inter-poll sleep equals 1/(2·source_fps) whenever
the device reports source_fps ≥ 1 (and may then exceed 5 ms); the 5 ms value
is used only as a fallback when the device reports no usable FPS. -/
theorem computeSleepTime_eq (sourceFps : Nat) :
    CameraReader.computeSleepTime sourceFps =
      if 1 ≤ sourceFps then 1 / (2 * (sourceFps : ℚ)) else 5 / 1000 := by
  unfold CameraReader.computeSleepTime
  split
  · rw [div_div, mul_comm]
  · rfl

/-- Claim C3, refutation on the code: after a mid-run read failure the
camera-thread handler calls CameraReader.stop on the camera thread itself; the
join of the camera thread raises, so the dispatcher, StreamRecording and
Motion workers are never stopped and the capture device is never released. -/
theorem cameraReadFailure_leaves_workers_running :
    ((CameraReader.onReadFailure CameraReader.initWorkers).2.isSome = true) ∧
    ((CameraReader.onReadFailure CameraReader.initWorkers).1.camStopEventSet = true) ∧
    ((CameraReader.onReadFailure CameraReader.initWorkers).1.camThreadJoined = false) ∧
    ((CameraReader.onReadFailure CameraReader.initWorkers).1.dispatcherStopEventSet = false) ∧
    ((CameraReader.onReadFailure CameraReader.initWorkers).1.dispatcherThreadJoined = false) ∧
    ((CameraReader.onReadFailure CameraReader.initWorkers).1.streamRecordingStopped = false) ∧
    ((CameraReader.onReadFailure CameraReader.initWorkers).1.motionStopped = false) ∧
    ((CameraReader.onReadFailure CameraReader.initWorkers).1.capReleased = false) := by
  decide

/-- Claim C2, refutation on the code: a retention sweep over a directory
holding files old.mkv, old.ts, old.avi, all with modification times older than
the cutoff, deletes the .avi file but leaves the .mkv and .ts files in place,
because the glob patterns are built with a double dot for those entries of the
extension list. -/
theorem cleanOldFiles_misses_mkv_ts :
    RecordingManager.cleanOldFiles (10 * 86400) 1
        [("old.mkv".data, 0), ("old.ts".data, 0), ("old.avi".data, 0), ("new.avi".data, 9 * 86400 + 1)] =
      [("old.mkv".data, 0), ("old.ts".data, 0), ("new.avi".data, 9 * 86400 + 1)] := by
  have h1 : ((1 : Nat) : ℚ) = 1 := by norm_num
  simp only [RecordingManager.cleanOldFiles, h1]
  norm_num
  decide

/-- Claim C10: the first frame dequeued by the Motion loop never yields a
motion decision or a state transition: the state machine, buffers and recorder
state are untouched; the step only fixes the processed resolution and stores
the processed frame as the previous frame. -/
theorem motion_first_frame {Raw PFrame Enc : Type} (env : MotionEnv Raw PFrame)
    (cfg : MotionConfig) (pixelPct objectPct : ℚ) (s : MotionState PFrame Enc)
    (raw : Raw) (enc : Enc) (hprev : s.previous = none) :
    (Motion.step env cfg pixelPct objectPct s raw enc).core = s.core ∧
    (Motion.step env cfg pixelPct objectPct s raw enc).previous =
      some (env.preprocess (Motion.step env cfg pixelPct objectPct s raw enc).res
        (Motion.step env cfg pixelPct objectPct s raw enc).needResize raw) := by
  by_cases h : s.res.1 = 0 ∨ s.res.2 = 0 <;>
    simp [Motion.step, h, hprev]

/-- Concrete opaque-image environment over natural-number frames, used to
instantiate theorems about the Motion loop. -/
def natMotionEnv : MotionEnv Nat Nat :=
  { dims := fun _ => (600, 800), preprocess := fun _ _ r => r,
    isMotion := fun a b _ _ => decide (a ≠ b) }

/-- Witness for claim C10 at a concrete first frame. -/
theorem motion_first_frame_witness :
    (Motion.initFullState Nat Nat).previous = none ∧
    (Motion.step natMotionEnv ⟨2, 2, 1, 0⟩ 1 1 (Motion.initFullState Nat Nat) 5 7).core =
      (Motion.initFullState Nat Nat).core ∧
    (Motion.step natMotionEnv ⟨2, 2, 1, 0⟩ 1 1 (Motion.initFullState Nat Nat) 5 7).previous =
      some (natMotionEnv.preprocess
        (Motion.step natMotionEnv ⟨2, 2, 1, 0⟩ 1 1 (Motion.initFullState Nat Nat) 5 7).res
        (Motion.step natMotionEnv ⟨2, 2, 1, 0⟩ 1 1 (Motion.initFullState Nat Nat) 5 7).needResize 5) :=
  ⟨rfl, motion_first_frame natMotionEnv ⟨2, 2, 1, 0⟩ 1 1 (Motion.initFullState Nat Nat) 5 7 rfl⟩

/-- Claim C7: on its first run, Motion._set_processed_resolution keeps the
source resolution without resizing when it fits the 640 by 480 box, and
otherwise scales both dimensions by the single factor min(640/w, 480/h)
(preserving aspect ratio) so that the result fits the box; the pixel and
object thresholds are the percentage of the processed pixel count. -/
theorem motion_processed_resolution (pixelPct objectPct : ℚ) (w h : Nat)
    (hw : 1 ≤ w) (hh : 1 ≤ h) (hpp : 0 ≤ pixelPct) (hop : 0 ≤ objectPct) :
    ((w ≤ 640 ∧ h ≤ 480) →
      (Motion.setProcessedResolution pixelPct objectPct w h).1 = (w, h) ∧
      (Motion.setProcessedResolution pixelPct objectPct w h).2.1 = false) ∧
    ((640 < w ∨ 480 < h) →
      (Motion.setProcessedResolution pixelPct objectPct w h).2.1 = true ∧
      (Motion.setProcessedResolution pixelPct objectPct w h).1 =
        ((Int.floor ((w : ℚ) * min ((640 : ℚ) / w) ((480 : ℚ) / h))).toNat,
         (Int.floor ((h : ℚ) * min ((640 : ℚ) / w) ((480 : ℚ) / h))).toNat) ∧
      (Motion.setProcessedResolution pixelPct objectPct w h).1.1 ≤ 640 ∧
      (Motion.setProcessedResolution pixelPct objectPct w h).1.2 ≤ 480) ∧
    (Motion.setProcessedResolution pixelPct objectPct w h).2.2.1 =
      Int.floor (((Motion.setProcessedResolution pixelPct objectPct w h).1.1 : ℚ) *
        ((Motion.setProcessedResolution pixelPct objectPct w h).1.2 : ℚ) * pixelPct / 100) ∧
    (Motion.setProcessedResolution pixelPct objectPct w h).2.2.2 =
      Int.floor (((Motion.setProcessedResolution pixelPct objectPct w h).1.1 : ℚ) *
        ((Motion.setProcessedResolution pixelPct objectPct w h).1.2 : ℚ) * objectPct / 100) := by
  have hw0 : (0 : ℚ) < (w : ℚ) := by exact_mod_cast hw
  have hh0 : (0 : ℚ) < (h : ℚ) := by exact_mod_cast hh
  have hscale : (0 : ℚ) ≤ min ((640 : ℚ) / w) ((480 : ℚ) / h) :=
    le_min (by positivity) (by positivity)
  by_cases hbig : 640 < w ∨ 480 < h
  · have hres : Motion.setProcessedResolution pixelPct objectPct w h =
        (((pyInt ((w : ℚ) * min ((640 : ℚ) / w) ((480 : ℚ) / h))).toNat,
          (pyInt ((h : ℚ) * min ((640 : ℚ) / w) ((480 : ℚ) / h))).toNat), true,
          pyInt (((pyInt ((w : ℚ) * min ((640 : ℚ) / w) ((480 : ℚ) / h))).toNat : ℚ) *
            ((pyInt ((h : ℚ) * min ((640 : ℚ) / w) ((480 : ℚ) / h))).toNat : ℚ) * pixelPct / 100),
          pyInt (((pyInt ((w : ℚ) * min ((640 : ℚ) / w) ((480 : ℚ) / h))).toNat : ℚ) *
            ((pyInt ((h : ℚ) * min ((640 : ℚ) / w) ((480 : ℚ) / h))).toNat : ℚ) * objectPct / 100)) := by
      simp only [Motion.setProcessedResolution, if_pos hbig]
      norm_num
    have hwnn : (0 : ℚ) ≤ (w : ℚ) * min ((640 : ℚ) / w) ((480 : ℚ) / h) :=
      mul_nonneg (le_of_lt hw0) hscale
    have hhnn : (0 : ℚ) ≤ (h : ℚ) * min ((640 : ℚ) / w) ((480 : ℚ) / h) :=
      mul_nonneg (le_of_lt hh0) hscale
    have hwfloor : pyInt ((w : ℚ) * min ((640 : ℚ) / w) ((480 : ℚ) / h)) =
        Int.floor ((w : ℚ) * min ((640 : ℚ) / w) ((480 : ℚ) / h)) := pyInt_eq_floor _ hwnn
    have hhfloor : pyInt ((h : ℚ) * min ((640 : ℚ) / w) ((480 : ℚ) / h)) =
        Int.floor ((h : ℚ) * min ((640 : ℚ) / w) ((480 : ℚ) / h)) := pyInt_eq_floor _ hhnn
    have hwbound : (w : ℚ) * min ((640 : ℚ) / w) ((480 : ℚ) / h) ≤ 640 := by
      calc (w : ℚ) * min ((640 : ℚ) / w) ((480 : ℚ) / h)
          ≤ (w : ℚ) * ((640 : ℚ) / w) :=
            mul_le_mul_of_nonneg_left (min_le_left _ _) (le_of_lt hw0)
        _ = 640 := mul_div_cancel₀ _ (ne_of_gt hw0)
    have hhbound : (h : ℚ) * min ((640 : ℚ) / w) ((480 : ℚ) / h) ≤ 480 := by
      calc (h : ℚ) * min ((640 : ℚ) / w) ((480 : ℚ) / h)
          ≤ (h : ℚ) * ((480 : ℚ) / h) :=
            mul_le_mul_of_nonneg_left (min_le_right _ _) (le_of_lt hh0)
        _ = 480 := mul_div_cancel₀ _ (ne_of_gt hh0)
    have hwle : (Int.floor ((w : ℚ) * min ((640 : ℚ) / w) ((480 : ℚ) / h))).toNat ≤ 640 := by
      rw [Int.toNat_le]
      exact le_trans (Int.floor_le_floor hwbound) (by norm_num)
    have hhle : (Int.floor ((h : ℚ) * min ((640 : ℚ) / w) ((480 : ℚ) / h))).toNat ≤ 480 := by
      rw [Int.toNat_le]
      exact le_trans (Int.floor_le_floor hhbound) (by norm_num)
    refine ⟨fun hsmall => absurd hbig (by omega), fun _ => ?_, ?_, ?_⟩
    · rw [hres, hwfloor, hhfloor]
      exact ⟨rfl, rfl, hwle, hhle⟩
    · rw [hres]
      exact pyInt_eq_floor _ (by positivity)
    · rw [hres]
      exact pyInt_eq_floor _ (by positivity)
  · have hsmall : w ≤ 640 ∧ h ≤ 480 := by omega
    have hres : Motion.setProcessedResolution pixelPct objectPct w h =
        ((w, h), false, pyInt ((w : ℚ) * (h : ℚ) * pixelPct / 100),
          pyInt ((w : ℚ) * (h : ℚ) * objectPct / 100)) := by
      simp only [Motion.setProcessedResolution, if_neg hbig]
    refine ⟨fun _ => by rw [hres]; exact ⟨rfl, rfl⟩, fun hbig2 => absurd hbig2 hbig, ?_, ?_⟩
    · rw [hres]
      exact pyInt_eq_floor _ (by positivity)
    · rw [hres]
      exact pyInt_eq_floor _ (by positivity)

/-- Witness for claim C7 at a concrete 800 by 600 source and at a concrete
320 by 240 source. -/
theorem motion_processed_resolution_witness :
    (Motion.setProcessedResolution 1 2 800 600).1 = (640, 480) ∧
    (Motion.setProcessedResolution 1 2 800 600).2.1 = true ∧
    (Motion.setProcessedResolution 1 2 800 600).2.2.1 =
      Int.floor (((Motion.setProcessedResolution 1 2 800 600).1.1 : ℚ) *
        ((Motion.setProcessedResolution 1 2 800 600).1.2 : ℚ) * 1 / 100) ∧
    (Motion.setProcessedResolution 1 2 320 240).1 = (320, 240) ∧
    (Motion.setProcessedResolution 1 2 320 240).2.1 = false := by
  have h1 := motion_processed_resolution 1 2 800 600 (by norm_num) (by norm_num)
    (by norm_num) (by norm_num)
  have h2 := motion_processed_resolution 1 2 320 240 (by norm_num) (by norm_num)
    (by norm_num) (by norm_num)
  have hbig := h1.2.1 (by norm_num)
  have hsmall := (h2.1 (by norm_num))
  refine ⟨?_, hbig.1, h1.2.2.1, hsmall.1, hsmall.2⟩
  rw [hbig.2.1]
  norm_num [min_def]
  exact ⟨rfl, rfl⟩

lemma throttle_foldl_invariant (interval : ℚ) (times : List ℚ) :
    ∀ (st : ℚ × List ℚ) (start : ℚ),
      st.1 = start + (st.2.length : ℚ) * interval →
      (∀ k, k < st.2.length → start + (k : ℚ) * interval ≤ st.2.getD k 0) →
      (times.foldl (CameraReader.throttleStep interval) st).1 =
        start + (((times.foldl (CameraReader.throttleStep interval) st).2.length : ℚ)) * interval ∧
      ∀ k, k < (times.foldl (CameraReader.throttleStep interval) st).2.length →
        start + (k : ℚ) * interval ≤
          (times.foldl (CameraReader.throttleStep interval) st).2.getD k 0 := by
  induction times with
  | nil => exact fun st start h1 h2 => ⟨h1, h2⟩
  | cons t ts ih =>
      intro st start h1 h2
      simp only [List.foldl_cons]
      by_cases hemit : st.1 ≤ t
      · have hstep : CameraReader.throttleStep interval st t =
            (st.1 + interval, st.2 ++ [t]) := by
          unfold CameraReader.throttleStep
          rw [if_pos hemit]
        rw [hstep]
        refine ih _ start ?_ ?_
        · simp only [List.length_append, List.length_cons, List.length_nil]
          push_cast
          rw [h1]
          ring
        · intro k hk
          simp only [List.length_append, List.length_cons, List.length_nil] at hk
          by_cases hlt : k < st.2.length
          · rw [List.getD_append _ _ _ _ hlt]
            exact h2 k hlt
          · have hkeq : k = st.2.length := by omega
            subst hkeq
            have : (st.2 ++ [t]).getD st.2.length 0 = t := by
              simp [List.getD_append_right, le_refl]
            rw [this, ← h1]
            exact hemit
      · have hstep : CameraReader.throttleStep interval st t = st := by
          unfold CameraReader.throttleStep
          rw [if_neg hemit]
        rw [hstep]
        exact ih st start h1 h2

/-- Claim C5: in the reader throttling loop a frame read at time now is
emitted only when now has reached next_display_time; after each emission the
deadline advances by exactly one target frame interval from its previous
value, so after k emissions the deadline is start plus k intervals, and the
frame of the k-th emission was read no earlier than start plus k intervals. -/
theorem reader_throttle_progression (targetFps : Nat) (start : ℚ) (times : List ℚ) :
    (CameraReader.runThrottle (CameraReader.targetFrameInterval targetFps) start times).1 =
      start + (((CameraReader.runThrottle (CameraReader.targetFrameInterval targetFps)
        start times).2.length : ℚ)) * CameraReader.targetFrameInterval targetFps ∧
    ∀ k, k < (CameraReader.runThrottle (CameraReader.targetFrameInterval targetFps)
        start times).2.length →
      start + (k : ℚ) * CameraReader.targetFrameInterval targetFps ≤
        (CameraReader.runThrottle (CameraReader.targetFrameInterval targetFps)
          start times).2.getD k 0 := by
  unfold CameraReader.runThrottle
  exact throttle_foldl_invariant (CameraReader.targetFrameInterval targetFps) times
    (start, []) start (by simp) (by simp)

/-- Witness for claim C5 on a concrete trace: target 2 fps, polls at times
0, 1/4, 1/2: the reads at 0 and 1/2 are emitted, the deadline ends at two
intervals past the start, and the second emission is at or past one interval. -/
theorem reader_throttle_progression_witness :
    (CameraReader.runThrottle (CameraReader.targetFrameInterval 2) 0 [0, 1/4, 1/2]).1 =
      0 + (((CameraReader.runThrottle (CameraReader.targetFrameInterval 2)
        0 [0, 1/4, 1/2]).2.length : ℚ)) * CameraReader.targetFrameInterval 2 ∧
    0 + ((1 : Nat) : ℚ) * CameraReader.targetFrameInterval 2 ≤
      (CameraReader.runThrottle (CameraReader.targetFrameInterval 2) 0 [0, 1/4, 1/2]).2.getD 1 0 := by
  have h := reader_throttle_progression 2 0 [0, 1/4, 1/2]
  refine ⟨h.1, h.2 1 ?_⟩
  norm_num [CameraReader.runThrottle, CameraReader.throttleStep, CameraReader.targetFrameInterval]

lemma motion_update_close_iff {Enc : Type} (cfg : MotionConfig)
    (s : MotionCoreState Enc) (enc : Enc) (hin : s.inEvent = true)
    (hrec : s.recOpen = true) :
    ((Motion.update cfg s false enc).inEvent = false ∧
      (Motion.update cfg s false enc).recOpen = false) ↔
      cfg.postCapture + cfg.eventGapFrames < s.idleFrameCount + 1 := by
  unfold Motion.update MotionRecording.stopEvent
  simp only [Bool.false_eq_true, if_false]
  split_ifs with h1 h2 h3 h4 h5 <;>
    (simp_all; try omega)

lemma motion_update_motion_keeps_event {Enc : Type} (cfg : MotionConfig)
    (s : MotionCoreState Enc) (enc : Enc) (hin : s.inEvent = true)
    (hrec : s.recOpen = true) :
    (Motion.update cfg s true enc).inEvent = true ∧
      (Motion.update cfg s true enc).recOpen = true := by
  unfold Motion.update MotionRecording.startEvent
  split_ifs <;> simp_all

/-- Claim C6: with event_gap_frames = event_gap × target_fps fixed at
construction, a step of the motion machine during an active event closes the
event (in_event cleared and the MotionRecording closed) exactly when the frame
carries no motion and the incremented idle streak exceeds
post_capture + event_gap_frames; with event_gap = 0 this is exactly the idle
streak exceeding post_capture; a motion frame never closes the event. -/
theorem motion_event_close (eventGap targetFps : Nat) (cfg : MotionConfig)
    (hgap : cfg.eventGapFrames = mkEventGapFrames eventGap targetFps)
    {Enc : Type} (s : MotionCoreState Enc) (enc : Enc)
    (hin : s.inEvent = true) (hrec : s.recOpen = true) :
    (((Motion.update cfg s false enc).inEvent = false ∧
      (Motion.update cfg s false enc).recOpen = false) ↔
      cfg.postCapture + eventGap * targetFps < s.idleFrameCount + 1) ∧
    (eventGap = 0 →
      (((Motion.update cfg s false enc).inEvent = false ∧
        (Motion.update cfg s false enc).recOpen = false) ↔
        cfg.postCapture < s.idleFrameCount + 1)) ∧
    (Motion.update cfg s true enc).inEvent = true ∧
    (Motion.update cfg s true enc).recOpen = true := by
  have hgap2 : cfg.eventGapFrames = eventGap * targetFps := hgap
  have hiff := motion_update_close_iff cfg s enc hin hrec
  rw [hgap2] at hiff
  refine ⟨hiff, ?_, motion_update_motion_keeps_event cfg s enc hin hrec⟩
  intro h0
  subst h0
  simpa using hiff

/-- Witness for claim C6: post_capture 1, event_gap 2 s at 3 fps, idle streak
reaching 8 on a no-motion frame closes the event; a motion frame does not. -/
theorem motion_event_close_witness :
    ((Motion.update ⟨2, 2, 1, 6⟩
        (⟨0, 7, true, false, [], [], true, [], 1⟩ : MotionCoreState Nat) false 9).inEvent = false ∧
      (Motion.update ⟨2, 2, 1, 6⟩
        (⟨0, 7, true, false, [], [], true, [], 1⟩ : MotionCoreState Nat) false 9).recOpen = false) ∧
    (Motion.update ⟨2, 2, 1, 6⟩
        (⟨0, 7, true, false, [], [], true, [], 1⟩ : MotionCoreState Nat) true 9).inEvent = true := by
  have h := motion_event_close 2 3 ⟨2, 2, 1, 6⟩ rfl
    (⟨0, 7, true, false, [], [], true, [], 1⟩ : MotionCoreState Nat) 9 rfl rfl
  exact ⟨h.1.mpr (by decide), h.2.2.1⟩

lemma dequeAppend_sublist {α : Type} (m : Nat) (buf : List α) (x : α)
    (tr : List α) (h : buf.Sublist tr) :
    (dequeAppend m buf x).Sublist (tr ++ [x]) :=
  (List.drop_sublist _ _).trans (h.append (List.Sublist.refl [x]))

lemma dequeAppend_of_le {α : Type} (m : Nat) (w0 t : List α) (x : α)
    (hlen : t.length + 1 ≤ m) :
    dequeAppend m (w0 ++ t) x =
      w0.drop (w0.length + (t.length + 1) - m) ++ (t ++ [x]) := by
  unfold dequeAppend
  rw [List.append_assoc]
  have hcount : (w0 ++ t).length + 1 - m = w0.length + (t.length + 1) - m := by
    simp [List.length_append]
    omega
  rw [hcount, List.drop_append_of_le_length (by omega)]

lemma update_motion_inTrue {Enc : Type} (cfg : MotionConfig)
    (s : MotionCoreState Enc) (e : Enc) (hitm : s.inTrueMotion = true) :
    Motion.update cfg s true e =
      { s with idleFrameCount := 0, recQueue := s.recQueue ++ [e] } := by
  unfold Motion.update
  simp [hitm]

lemma update_motion_confirm_inEvent {Enc : Type} (cfg : MotionConfig)
    (s : MotionCoreState Enc) (e : Enc) (hitm : s.inTrueMotion = false)
    (hc : cfg.minimumMotionFrames ≤ s.motionFrameCount + 1)
    (hin : s.inEvent = true) :
    Motion.update cfg s true e =
      { s with motionFrameCount := 0, idleFrameCount := 0, inTrueMotion := true,
               recQueue := s.recQueue ++ s.preCaptureBuffer ++
                 dequeAppend cfg.minimumMotionFrames s.minimumMotionBuffer e,
               preCaptureBuffer := [], minimumMotionBuffer := [] } := by
  unfold Motion.update
  simp [hitm, hc, hin]

lemma update_motion_confirm_newEvent {Enc : Type} (cfg : MotionConfig)
    (s : MotionCoreState Enc) (e : Enc) (hitm : s.inTrueMotion = false)
    (hc : cfg.minimumMotionFrames ≤ s.motionFrameCount + 1)
    (hin : s.inEvent = false) (hrec : s.recOpen = false) :
    Motion.update cfg s true e =
      { s with motionFrameCount := 0, idleFrameCount := 0, inTrueMotion := true,
               inEvent := true, recOpen := true,
               eventsStarted := s.eventsStarted + 1,
               recQueue := s.recQueue ++ s.preCaptureBuffer ++
                 dequeAppend cfg.minimumMotionFrames s.minimumMotionBuffer e,
               preCaptureBuffer := [], minimumMotionBuffer := [] } := by
  unfold Motion.update MotionRecording.startEvent
  simp [hitm, hc, hin, hrec]

lemma update_motion_noconfirm {Enc : Type} (cfg : MotionConfig)
    (s : MotionCoreState Enc) (e : Enc) (hitm : s.inTrueMotion = false)
    (hc : ¬(cfg.minimumMotionFrames ≤ s.motionFrameCount + 1)) :
    Motion.update cfg s true e =
      { s with motionFrameCount := s.motionFrameCount + 1,
               idleFrameCount := s.idleFrameCount + 1,
               minimumMotionBuffer :=
                 dequeAppend cfg.minimumMotionFrames s.minimumMotionBuffer e } := by
  unfold Motion.update
  simp [hitm, hc]

lemma update_noMotion_exitTrue_close {Enc : Type} (cfg : MotionConfig)
    (s : MotionCoreState Enc) (e : Enc) (hitm : s.inTrueMotion = true)
    (hpost : cfg.postCapture < s.idleFrameCount + 1)
    (hin : s.inEvent = true)
    (hclose : cfg.postCapture + cfg.eventGapFrames < s.idleFrameCount + 1) :
    Motion.update cfg s false e =
      { s with motionFrameCount := 0, idleFrameCount := s.idleFrameCount + 1,
               inTrueMotion := false, inEvent := false, recOpen := false,
               preCaptureBuffer := dequeAppend cfg.preCapture s.preCaptureBuffer e } := by
  unfold Motion.update MotionRecording.stopEvent
  simp [hitm, hpost, hin, hclose]

lemma update_noMotion_exitTrue_noclose {Enc : Type} (cfg : MotionConfig)
    (s : MotionCoreState Enc) (e : Enc) (hitm : s.inTrueMotion = true)
    (hpost : cfg.postCapture < s.idleFrameCount + 1)
    (hclose : ¬(s.inEvent = true ∧ cfg.postCapture + cfg.eventGapFrames < s.idleFrameCount + 1)) :
    Motion.update cfg s false e =
      { s with motionFrameCount := 0, idleFrameCount := s.idleFrameCount + 1,
               inTrueMotion := false,
               preCaptureBuffer := dequeAppend cfg.preCapture s.preCaptureBuffer e } := by
  unfold Motion.update
  simp only [Bool.false_eq_true, if_false, hitm, if_pos hpost, if_true]
  rw [if_neg ?_]
  intro hcontra
  exact hclose ⟨hcontra.2.1, hcontra.2.2⟩

lemma update_noMotion_postRoll {Enc : Type} (cfg : MotionConfig)
    (s : MotionCoreState Enc) (e : Enc) (hitm : s.inTrueMotion = true)
    (hpost : ¬(cfg.postCapture < s.idleFrameCount + 1)) :
    Motion.update cfg s false e =
      { s with motionFrameCount := 0, idleFrameCount := s.idleFrameCount + 1,
               recQueue := s.recQueue ++ [e] } := by
  unfold Motion.update
  simp [hitm, hpost]

lemma update_noMotion_idle_close {Enc : Type} (cfg : MotionConfig)
    (s : MotionCoreState Enc) (e : Enc) (hitm : s.inTrueMotion = false)
    (hin : s.inEvent = true)
    (hclose : cfg.postCapture + cfg.eventGapFrames < s.idleFrameCount + 1) :
    Motion.update cfg s false e =
      { s with motionFrameCount := 0, idleFrameCount := s.idleFrameCount + 1,
               inEvent := false, recOpen := false,
               preCaptureBuffer := dequeAppend cfg.preCapture s.preCaptureBuffer e } := by
  unfold Motion.update MotionRecording.stopEvent
  simp [hitm, hin, hclose]

lemma update_noMotion_idle_noclose {Enc : Type} (cfg : MotionConfig)
    (s : MotionCoreState Enc) (e : Enc) (hitm : s.inTrueMotion = false)
    (hclose : ¬(s.inEvent = true ∧ cfg.postCapture + cfg.eventGapFrames < s.idleFrameCount + 1)) :
    Motion.update cfg s false e =
      { s with motionFrameCount := 0, idleFrameCount := s.idleFrameCount + 1,
               preCaptureBuffer := dequeAppend cfg.preCapture s.preCaptureBuffer e } := by
  unfold Motion.update
  simp only [Bool.false_eq_true, if_false, hitm, if_true]
  rw [if_neg ?_]
  intro hcontra
  exact hclose ⟨hcontra.2.1, hcontra.2.2⟩

/-- Invariant of the motion state machine along a run over input trace l. -/
def motionTraceInv {Enc : Type} (cfg : MotionConfig) (l : List (Bool × Enc))
    (s : MotionCoreState Enc) : Prop :=
  s.inEvent = s.recOpen ∧
  (s.inTrueMotion = true → s.motionFrameCount = 0 ∧
    s.preCaptureBuffer.Sublist (l.map Prod.snd)) ∧
  (s.inTrueMotion = false →
    ∃ n, n ≤ l.length ∧ s.motionFrameCount + n = l.length ∧
      s.motionFrameCount < cfg.minimumMotionFrames ∧
      (∀ p ∈ l.drop n, p.1 = true) ∧
      (∃ w0, s.minimumMotionBuffer = w0 ++ (l.drop n).map Prod.snd) ∧
      s.preCaptureBuffer.Sublist ((l.take n).map Prod.snd))

lemma motionTraceInv_init {Enc : Type} (cfg : MotionConfig)
    (hmin : 1 ≤ cfg.minimumMotionFrames) :
    motionTraceInv cfg [] (Motion.initState Enc) := by
  refine ⟨rfl, fun h => ⟨rfl, by simp [Motion.initState]⟩, fun _ => ⟨0, ?_⟩⟩
  simp [Motion.initState]
  omega

lemma motionTraceInv_step {Enc : Type} (cfg : MotionConfig)
    (hmin : 1 ≤ cfg.minimumMotionFrames) (l : List (Bool × Enc))
    (s : MotionCoreState Enc) (b : Bool) (e : Enc)
    (hinv : motionTraceInv cfg l s) :
    motionTraceInv cfg (l ++ [(b, e)]) (Motion.update cfg s b e) := by
  obtain ⟨hev, htrue, hfalse⟩ := hinv
  by_cases hb : b = true
  · subst hb
    by_cases hitm : s.inTrueMotion = true
    · -- in true motion, motion frame: forward to recorder
      obtain ⟨hmfc, hpre⟩ := htrue hitm
      rw [update_motion_inTrue cfg s e hitm]
      refine ⟨hev, fun _ => ⟨hmfc, ?_⟩, fun habs => by simp [hitm] at habs⟩
      simpa using hpre.trans (List.sublist_append_left _ _)
    · -- candidate motion frame
      have hitm2 : s.inTrueMotion = false := by simpa using hitm
      by_cases hc : cfg.minimumMotionFrames ≤ s.motionFrameCount + 1
      · -- confirmation: flush, clear buffers, enter true motion
        by_cases hin : s.inEvent = true
        · rw [update_motion_confirm_inEvent cfg s e hitm2 hc hin]
          exact ⟨hev, fun _ => ⟨rfl, by simp⟩, fun habs => by simp at habs⟩
        · have hin2 : s.inEvent = false := by simpa using hin
          have hrec : s.recOpen = false := hev ▸ hin2
          rw [update_motion_confirm_newEvent cfg s e hitm2 hc hin2 hrec]
          exact ⟨rfl, fun _ => ⟨rfl, by simp⟩, fun habs => by simp at habs⟩
      · -- candidate grows: counter and min-window advance
        obtain ⟨n, hn, hmfcn, hmfclt, htrail, ⟨w0, hw0⟩, hpre⟩ := hfalse hitm2
        have hshape : ∀ t : MotionCoreState Enc,
            t.motionFrameCount = s.motionFrameCount + 1 →
            t.inTrueMotion = false →
            t.minimumMotionBuffer =
              dequeAppend cfg.minimumMotionFrames s.minimumMotionBuffer e →
            t.preCaptureBuffer = s.preCaptureBuffer →
            t.inEvent = t.recOpen →
            motionTraceInv cfg (l ++ [(true, e)]) t := by
          intro t h1 h2 h3 h4 h5
          refine ⟨h5, fun habs => by simp [h2] at habs, fun _ =>
            ⟨n, ?_, ?_, ?_, ?_, ?_, ?_⟩⟩
          · simp only [List.length_append, List.length_cons, List.length_nil]
            omega
          · rw [h1]
            simp only [List.length_append, List.length_cons, List.length_nil]
            omega
          · rw [h1]
            omega
          · intro p hp
            rw [List.drop_append_of_le_length hn] at hp
            rcases List.mem_append.mp hp with hold | hnew
            · exact htrail p hold
            · rw [List.mem_singleton.mp hnew]
          · have htl : ((l.drop n).map Prod.snd).length + 1 ≤ cfg.minimumMotionFrames := by
              simp only [List.length_map, List.length_drop]
              omega
            refine ⟨w0.drop (w0.length + (((l.drop n).map Prod.snd).length + 1) -
              cfg.minimumMotionFrames), ?_⟩
            rw [h3, hw0, dequeAppend_of_le _ _ _ _ htl,
              List.drop_append_of_le_length hn]
            simp
          · rw [h4, List.take_append_of_le_length hn]
            exact hpre
        rw [update_motion_noconfirm cfg s e hitm2 hc]
        exact hshape _ rfl hitm2 rfl rfl hev
  · -- no-motion frame
    have hb2 : b = false := by simpa using hb
    subst hb2
    by_cases hitm : s.inTrueMotion = true
    · obtain ⟨hmfc, hpre⟩ := htrue hitm
      by_cases hpost : cfg.postCapture < s.idleFrameCount + 1
      · -- true motion ends
        have hshape : ∀ t : MotionCoreState Enc,
            t.motionFrameCount = 0 →
            t.inTrueMotion = false →
            t.minimumMotionBuffer = s.minimumMotionBuffer →
            t.preCaptureBuffer = dequeAppend cfg.preCapture s.preCaptureBuffer e →
            t.inEvent = t.recOpen →
            motionTraceInv cfg (l ++ [(false, e)]) t := by
          intro t h1 h2 h3 h4 h5
          refine ⟨h5, fun habs => by simp [h2] at habs, fun _ =>
            ⟨l.length + 1, ?_, ?_, by omega, ?_, ?_, ?_⟩⟩
          · simp
          · simp [h1]
          · intro p hp
            rw [List.drop_eq_nil_of_le (by simp)] at hp
            simp at hp
          · refine ⟨t.minimumMotionBuffer, ?_⟩
            rw [List.drop_eq_nil_of_le (by simp)]
            simp
          · rw [List.take_of_length_le (by simp)]
            rw [h4]
            simpa using dequeAppend_sublist cfg.preCapture s.preCaptureBuffer e _ hpre
        by_cases hclose : s.inEvent = true ∧
            cfg.postCapture + cfg.eventGapFrames < s.idleFrameCount + 1
        · rw [update_noMotion_exitTrue_close cfg s e hitm hpost hclose.1 hclose.2]
          exact hshape _ rfl rfl rfl rfl rfl
        · rw [update_noMotion_exitTrue_noclose cfg s e hitm hpost hclose]
          exact hshape _ rfl rfl rfl rfl hev
      · -- post-roll: frame forwarded, still in true motion
        rw [update_noMotion_postRoll cfg s e hitm hpost]
        refine ⟨hev, fun _ => ⟨rfl, ?_⟩, fun habs => by simp [hitm] at habs⟩
        simpa using hpre.trans (List.sublist_append_left _ _)
    · -- idle or cool-down: push into pre-capture ring
      have hitm2 : s.inTrueMotion = false := by simpa using hitm
      obtain ⟨n, hn, hmfcn, hmfclt, htrail, ⟨w0, hw0⟩, hpre⟩ := hfalse hitm2
      have hpre2 : s.preCaptureBuffer.Sublist (l.map Prod.snd) :=
        hpre.trans ((List.take_sublist n l).map Prod.snd)
      have hshape : ∀ t : MotionCoreState Enc,
          t.motionFrameCount = 0 →
          t.inTrueMotion = false →
          t.minimumMotionBuffer = s.minimumMotionBuffer →
          t.preCaptureBuffer = dequeAppend cfg.preCapture s.preCaptureBuffer e →
          t.inEvent = t.recOpen →
          motionTraceInv cfg (l ++ [(false, e)]) t := by
        intro t h1 h2 h3 h4 h5
        refine ⟨h5, fun habs => by simp [h2] at habs, fun _ =>
          ⟨l.length + 1, ?_, ?_, by omega, ?_, ?_, ?_⟩⟩
        · simp
        · simp [h1]
        · intro p hp
          rw [List.drop_eq_nil_of_le (by simp)] at hp
          simp at hp
        · refine ⟨t.minimumMotionBuffer, ?_⟩
          rw [List.drop_eq_nil_of_le (by simp)]
          simp
        · rw [List.take_of_length_le (by simp)]
          rw [h4]
          simpa using dequeAppend_sublist cfg.preCapture s.preCaptureBuffer e _ hpre2
      by_cases hclose : s.inEvent = true ∧
          cfg.postCapture + cfg.eventGapFrames < s.idleFrameCount + 1
      · rw [update_noMotion_idle_close cfg s e hitm2 hclose.1 hclose.2]
        exact hshape _ rfl hitm2 rfl rfl rfl
      · rw [update_noMotion_idle_noclose cfg s e hitm2 hclose]
        exact hshape _ rfl hitm2 rfl rfl hev

lemma runUpdate_append {Enc : Type} (cfg : MotionConfig)
    (l : List (Bool × Enc)) (p : Bool × Enc) :
    Motion.runUpdate cfg (l ++ [p]) =
      Motion.update cfg (Motion.runUpdate cfg l) p.1 p.2 := by
  simp [Motion.runUpdate, List.foldl_append]

lemma motionTraceInv_run {Enc : Type} (cfg : MotionConfig)
    (hmin : 1 ≤ cfg.minimumMotionFrames) (l : List (Bool × Enc)) :
    motionTraceInv cfg l (Motion.runUpdate cfg l) := by
  induction l using List.reverseRecOn with
  | nil => exact motionTraceInv_init cfg hmin
  | append_singleton l p ih =>
      rw [runUpdate_append]
      exact motionTraceInv_step cfg hmin l _ p.1 p.2 ih

/-- Claim C1: along any run of the motion state machine, when a motion frame
raises the candidate streak to minimum_motion_frames, the machine enters true
motion, the MotionRecording is open (a new event file having been started if
no event was active), the pre-capture ring followed by the updated
minimum-motion window is appended to the MotionRecording queue, both buffers
are cleared, and the flushed frames are a subsequence of the capture sequence
(ring oldest to newest, then the window), i.e. in capture order. -/
theorem motion_confirm_flush {Enc : Type} (cfg : MotionConfig)
    (hmin : 1 ≤ cfg.minimumMotionFrames) (l : List (Bool × Enc)) (enc : Enc)
    (hcand : (Motion.runUpdate cfg l).inTrueMotion = false)
    (hstreak : cfg.minimumMotionFrames ≤ (Motion.runUpdate cfg l).motionFrameCount + 1) :
    (Motion.update cfg (Motion.runUpdate cfg l) true enc).inTrueMotion = true ∧
    (Motion.update cfg (Motion.runUpdate cfg l) true enc).recOpen = true ∧
    ((Motion.runUpdate cfg l).inEvent = false →
      (Motion.update cfg (Motion.runUpdate cfg l) true enc).eventsStarted =
        (Motion.runUpdate cfg l).eventsStarted + 1) ∧
    (Motion.update cfg (Motion.runUpdate cfg l) true enc).recQueue =
      (Motion.runUpdate cfg l).recQueue ++ (Motion.runUpdate cfg l).preCaptureBuffer ++
        dequeAppend cfg.minimumMotionFrames (Motion.runUpdate cfg l).minimumMotionBuffer enc ∧
    (Motion.update cfg (Motion.runUpdate cfg l) true enc).preCaptureBuffer = [] ∧
    (Motion.update cfg (Motion.runUpdate cfg l) true enc).minimumMotionBuffer = [] ∧
    ((Motion.runUpdate cfg l).preCaptureBuffer ++
      dequeAppend cfg.minimumMotionFrames (Motion.runUpdate cfg l).minimumMotionBuffer enc).Sublist
      (l.map Prod.snd ++ [enc]) := by
  obtain ⟨hev, htrue, hfalse⟩ := motionTraceInv_run cfg hmin l
  obtain ⟨n, hn, hmfcn, hmfclt, htrail, ⟨w0, hw0⟩, hpre⟩ := hfalse hcand
  have horder : ((Motion.runUpdate cfg l).preCaptureBuffer ++
      dequeAppend cfg.minimumMotionFrames
        (Motion.runUpdate cfg l).minimumMotionBuffer enc).Sublist
      (l.map Prod.snd ++ [enc]) := by
    have htl : ((l.drop n).map Prod.snd).length + 1 ≤ cfg.minimumMotionFrames := by
      simp only [List.length_map, List.length_drop]
      omega
    have hflush : dequeAppend cfg.minimumMotionFrames
        (Motion.runUpdate cfg l).minimumMotionBuffer enc =
        (l.drop n).map Prod.snd ++ [enc] := by
      rw [hw0, dequeAppend_of_le _ _ _ _ htl]
      have hw0len : w0.length + (((l.drop n).map Prod.snd).length + 1) -
          cfg.minimumMotionFrames = w0.length := by
        simp only [List.length_map, List.length_drop]
        omega
      rw [hw0len, List.drop_length, List.nil_append]
    rw [hflush]
    have hsplit : (l.map Prod.snd) ++ [enc] =
        (l.take n).map Prod.snd ++ ((l.drop n).map Prod.snd ++ [enc]) := by
      rw [← List.append_assoc, ← List.map_append, List.take_append_drop]
    rw [hsplit]
    exact hpre.append (List.Sublist.refl _)
  by_cases hin : (Motion.runUpdate cfg l).inEvent = true
  · rw [update_motion_confirm_inEvent cfg _ enc hcand hstreak hin]
    refine ⟨rfl, ?_, ?_, rfl, rfl, rfl, horder⟩
    · exact hev.symm.trans hin
    · intro hcontra
      rw [hin] at hcontra
      cases hcontra
  · have hin2 : (Motion.runUpdate cfg l).inEvent = false := by simpa using hin
    have hrec : (Motion.runUpdate cfg l).recOpen = false := hev ▸ hin2
    rw [update_motion_confirm_newEvent cfg _ enc hcand hstreak hin2 hrec]
    exact ⟨rfl, rfl, fun _ => rfl, rfl, rfl, rfl, horder⟩

/-- Witness for claim C1: two ring frames and a two-frame streak flush
10, 11, 20, 21 into the recorder queue in capture order. -/
theorem motion_confirm_flush_witness :
    (Motion.update ⟨2, 2, 1, 0⟩
        (Motion.runUpdate ⟨2, 2, 1, 0⟩ [(false, 10), (false, 11), (true, 20)]) true 21).inTrueMotion = true ∧
    (Motion.update ⟨2, 2, 1, 0⟩
        (Motion.runUpdate ⟨2, 2, 1, 0⟩ [(false, 10), (false, 11), (true, 20)]) true 21).recOpen = true ∧
    (Motion.update ⟨2, 2, 1, 0⟩
        (Motion.runUpdate ⟨2, 2, 1, 0⟩ [(false, 10), (false, 11), (true, 20)]) true 21).eventsStarted =
      (Motion.runUpdate ⟨2, 2, 1, 0⟩ [(false, 10), (false, 11), (true, 20)]).eventsStarted + 1 ∧
    (Motion.update ⟨2, 2, 1, 0⟩
        (Motion.runUpdate ⟨2, 2, 1, 0⟩ [(false, 10), (false, 11), (true, 20)]) true 21).recQueue =
      (Motion.runUpdate ⟨2, 2, 1, 0⟩ [(false, 10), (false, 11), (true, 20)]).recQueue ++
        (Motion.runUpdate ⟨2, 2, 1, 0⟩ [(false, 10), (false, 11), (true, 20)]).preCaptureBuffer ++
        dequeAppend 2
          (Motion.runUpdate ⟨2, 2, 1, 0⟩ [(false, 10), (false, 11), (true, 20)]).minimumMotionBuffer 21 ∧
    ((Motion.runUpdate ⟨2, 2, 1, 0⟩ [(false, 10), (false, 11), (true, 20)]).preCaptureBuffer ++
      dequeAppend 2
        (Motion.runUpdate ⟨2, 2, 1, 0⟩ [(false, 10), (false, 11), (true, 20)]).minimumMotionBuffer 21).Sublist
      ([(false, (10 : Nat)), (false, 11), (true, 20)].map Prod.snd ++ [21]) := by
  have h := @motion_confirm_flush Nat ⟨2, 2, 1, 0⟩ (by decide)
    [(false, 10), (false, 11), (true, 20)] 21 (by decide) (by decide)
  exact ⟨h.1, h.2.1, h.2.2.1 (by decide), h.2.2.2.1, h.2.2.2.2.2.2⟩

/-- Decimal value of a digit-character list, most significant first. -/
def charsToNat (l : List Char) : Nat :=
  l.foldl (fun acc c => 10 * acc + (c.toNat - 48)) 0

lemma natDigitChar_toNat (d : Nat) (hd : d < 10) : (natDigitChar d).toNat = 48 + d := by
  unfold natDigitChar
  exact char_toNat_ofNat _ (Or.inl (by omega))

lemma charsToNat_append_digit (a : List Char) (c : Char) :
    charsToNat (a ++ [c]) = 10 * charsToNat a + (c.toNat - 48) := by
  unfold charsToNat
  rw [List.foldl_append]
  rfl

lemma charsToNat_natCharsAux (fuel n : Nat) (h : n ≤ fuel) :
    charsToNat (natCharsAux fuel n) = n := by
  induction fuel generalizing n with
  | zero =>
      have hn : n = 0 := by omega
      subst hn
      rfl
  | succ fuel ih =>
      match n with
      | 0 => rfl
      | m + 1 =>
          rw [natCharsAux, charsToNat_append_digit,
            ih ((m + 1) / 10) (by
              have hlt : (m + 1) / 10 < m + 1 := Nat.div_lt_self (by omega) (by omega)
              omega),
            natDigitChar_toNat _ (Nat.mod_lt _ (by omega))]
          omega

lemma natChars_inj (i j : Nat) (h : natChars i = natChars j) : i = j := by
  have hi := charsToNat_natCharsAux i i (le_refl i)
  have hj := charsToNat_natCharsAux j j (le_refl j)
  unfold natChars at h
  rw [← hi, ← hj, h]

lemma natCharsAux_digits (fuel n : Nat) :
    ∀ c ∈ natCharsAux fuel n, 48 ≤ c.toNat ∧ c.toNat ≤ 57 := by
  induction fuel generalizing n with
  | zero =>
      match n with
      | 0 => intro c hc; cases hc
      | m + 1 => intro c hc; cases hc
  | succ fuel ih =>
      match n with
      | 0 => intro c hc; cases hc
      | m + 1 =>
          intro c hc
          rw [natCharsAux] at hc
          rcases List.mem_append.mp hc with hrec | hdig
          · exact ih _ c hrec
          · rw [List.mem_singleton.mp hdig,
              natDigitChar_toNat _ (Nat.mod_lt _ (by omega))]
            have hlt : (m + 1) % 10 < 10 := Nat.mod_lt _ (by omega)
            omega

lemma natChars_ne_rparen (n : Nat) : ∀ c ∈ natChars n, c ≠ ')' := by
  intro c hc heq
  have h := natCharsAux_digits n n c hc
  rw [heq] at h
  have : (')' : Char).toNat = 41 := rfl
  omega

lemma append_delim_inj (delim : Char) :
    ∀ (a b x y : List Char), (∀ c ∈ a, c ≠ delim) → (∀ c ∈ b, c ≠ delim) →
      a ++ delim :: x = b ++ delim :: y → a = b ∧ x = y := by
  intro a
  induction a with
  | nil =>
      intro b x y _ hb heq
      match b with
      | [] =>
          simp only [List.nil_append] at heq
          exact ⟨rfl, (List.cons.injEq _ _ _ _).mp heq |>.2⟩
      | c :: bs =>
          simp only [List.nil_append, List.cons_append] at heq
          have hc : c = delim := ((List.cons.injEq _ _ _ _).mp heq).1.symm
          exact absurd hc (hb c (List.mem_cons_self c bs))
  | cons c as ih =>
      intro b x y ha hb heq
      match b with
      | [] =>
          simp only [List.cons_append, List.nil_append] at heq
          have hc : c = delim := ((List.cons.injEq _ _ _ _).mp heq).1
          exact absurd hc (ha c (List.mem_cons_self c as))
      | d :: bs =>
          simp only [List.cons_append] at heq
          obtain ⟨hcd, htail⟩ := (List.cons.injEq _ _ _ _).mp heq
          obtain ⟨h1, h2⟩ := ih bs x y
            (fun u hu => ha u (List.mem_cons_of_mem c hu))
            (fun u hu => hb u (List.mem_cons_of_mem d hu)) htail
          exact ⟨by rw [hcd, h1], h2⟩

lemma candidateName_inj (base ext : List Char) (i j : Nat)
    (h : candidateName base ext i = candidateName base ext j) : i = j := by
  by_cases hi : i = 0
  · by_cases hj : j = 0
    · rw [hi, hj]
    · exfalso
      rw [hi] at h
      unfold candidateName at h
      rw [if_pos rfl, if_neg hj] at h
      have hlen := congrArg List.length h
      simp [List.length_append] at hlen
      omega
  · by_cases hj : j = 0
    · exfalso
      rw [hj] at h
      unfold candidateName at h
      rw [if_neg hi, if_pos rfl] at h
      have hlen := congrArg List.length h
      simp [List.length_append] at hlen
      omega
    · unfold candidateName at h
      rw [if_neg hi, if_neg hj] at h
      have htail : '(' :: (natChars i ++ ')' :: ext) =
          '(' :: (natChars j ++ ')' :: ext) := by
        have := List.append_cancel_left h
        exact this
      have hmid : natChars i ++ ')' :: ext = natChars j ++ ')' :: ext :=
        ((List.cons.injEq _ _ _ _).mp htail).2
      have hdig := append_delim_inj ')' (natChars i) (natChars j) ext ext
        (natChars_ne_rparen i) (natChars_ne_rparen j) hmid
      exact natChars_inj i j hdig.1

lemma candidates_le_length (existing : List (List Char)) (base ext : List Char)
    (n : Nat) (h : ∀ i, i < n → candidateName base ext i ∈ existing) :
    n ≤ existing.length := by
  classical
  have hinj : Set.InjOn (candidateName base ext) (Finset.range n) := by
    intro i _ j _ hij
    exact candidateName_inj base ext i j hij
  have hsub : (Finset.range n).image (candidateName base ext) ⊆ existing.toFinset := by
    intro x hx
    obtain ⟨i, hi, rfl⟩ := Finset.mem_image.mp hx
    exact List.mem_toFinset.mpr (h i (Finset.mem_range.mp hi))
  have hcard : ((Finset.range n).image (candidateName base ext)).card = n := by
    rw [Finset.card_image_of_injOn hinj, Finset.card_range]
  have := Finset.card_le_card hsub
  rw [hcard] at this
  exact le_trans this (List.toFinset_card_le existing)

lemma checkFileNameLoop_finds (existing : List (List Char)) (base ext : List Char) :
    ∀ (fuel i n : Nat), i ≤ n → n < i + fuel →
      (∀ m, i ≤ m → m < n → candidateName base ext m ∈ existing) →
      candidateName base ext n ∉ existing →
      checkFileNameLoop existing base ext fuel i = some (candidateName base ext n) := by
  intro fuel
  induction fuel with
  | zero =>
      intro i n h1 h2 _ _
      omega
  | succ fuel ih =>
      intro i n h1 h2 hmem hfree
      rw [checkFileNameLoop]
      by_cases hi : candidateName base ext i ∈ existing
      · rw [if_pos hi]
        have hne : i ≠ n := fun heq => hfree (heq ▸ hi)
        exact ih (i + 1) n (by omega) (by omega)
          (fun m hm1 hm2 => hmem m (by omega) hm2) hfree
      · rw [if_neg hi]
        have heq : i = n := by
          by_contra hne
          exact hi (hmem i (le_refl i) (by omega))
        rw [heq]

lemma checkFileNameLoop_not_mem (existing : List (List Char)) (base ext : List Char) :
    ∀ (fuel i : Nat) (r : List Char),
      checkFileNameLoop existing base ext fuel i = some r → r ∉ existing := by
  intro fuel
  induction fuel with
  | zero =>
      intro i r h
      cases h
  | succ fuel ih =>
      intro i r h
      rw [checkFileNameLoop] at h
      by_cases hi : candidateName base ext i ∈ existing
      · rw [if_pos hi] at h
        exact ih (i + 1) r h
      · rw [if_neg hi] at h
        rw [← Option.some.injEq _ _ |>.mp h]
        exact hi

/-- Claim C8: filename collision resolution is deterministic: when the
requested name and its parenthesised variants up to n-1 are exactly the
colliding entries present, the chosen path is the variant with suffix (n);
moreover a name is always chosen, and the chosen name never collides with an
existing file. -/
theorem check_file_name_spec (existing : List (List Char)) (base ext : List Char)
    (n : Nat)
    (hexist : ∀ i, i < n → candidateName base ext i ∈ existing)
    (hfree : candidateName base ext n ∉ existing) :
    RecordingManager.checkFileName existing base ext =
      some (candidateName base ext n) ∧
    (∀ (ex2 : List (List Char)) (b2 e2 : List Char),
      (RecordingManager.checkFileName ex2 b2 e2).isSome = true) ∧
    (∀ (ex2 : List (List Char)) (b2 e2 r : List Char),
      RecordingManager.checkFileName ex2 b2 e2 = some r → r ∉ ex2) := by
  classical
  refine ⟨?_, ?_, ?_⟩
  · have hle : n ≤ existing.length := candidates_le_length existing base ext n hexist
    exact checkFileNameLoop_finds existing base ext (existing.length + 1) 0 n
      (Nat.zero_le n) (by omega) (fun m _ hm => hexist m hm) hfree
  · intro ex2 b2 e2
    have hex : ∃ k, candidateName b2 e2 k ∉ ex2 := by
      by_contra hall
      push_neg at hall
      have := candidates_le_length ex2 b2 e2 (ex2.length + 1)
        (fun i _ => hall i)
      omega
    have hminmem : ∀ m, m < Nat.find hex → candidateName b2 e2 m ∈ ex2 := by
      intro m hm
      have := Nat.find_min hex hm
      exact not_not.mp this
    have hnle : Nat.find hex ≤ ex2.length :=
      candidates_le_length ex2 b2 e2 (Nat.find hex) (fun i hi => hminmem i hi)
    have heq := checkFileNameLoop_finds ex2 b2 e2 (ex2.length + 1) 0 (Nat.find hex)
      (Nat.zero_le _) (by omega) (fun m _ hm => hminmem m hm) (Nat.find_spec hex)
    unfold RecordingManager.checkFileName
    rw [heq]
    rfl
  · intro ex2 b2 e2 r hr
    exact checkFileNameLoop_not_mem ex2 b2 e2 (ex2.length + 1) 0 r hr

/-- Witness for claim C8: with a.avi and a(1).avi present, the chosen name is
a(2).avi. -/
theorem check_file_name_spec_witness :
    RecordingManager.checkFileName ["a.avi".data, "a(1).avi".data] "a".data ".avi".data =
      some (candidateName "a".data ".avi".data 2) ∧
    (RecordingManager.checkFileName ["b.avi".data] "b".data ".avi".data).isSome = true := by
  have h := check_file_name_spec ["a.avi".data, "a(1).avi".data] "a".data ".avi".data 2
    (by decide) (by decide)
  exact ⟨h.1, h.2.1 ["b.avi".data] "b".data ".avi".data⟩
